import Mathlib

/-!
Verification of the segment post-processing and speaker-embedding
aggregation pipeline of the diarization bot.

The Python sources are shallowly embedded:

* `app/postprocess.py` — JSON values become the inductive `JValue`;
  Python floats become exact rationals `ℚ`; a raw-record operation that
  can raise becomes an `Except LoadError` computation.
* `app/speaker_enrollment.py` — the ffmpeg sub-process and the embedding
  model are oracles passed as function arguments (`exit`, `embed`); file
  creation becomes the returned list of `(file name, vector)` pairs.
* `app/pipeline.py` — the post-recognition tail of
  `AudioDiarizationPipeline.process` becomes a pure function producing a
  `PipelineOutcome` record.
-/

namespace DiarizationBot

/-- A parsed JSON value (the result of `json.loads`).  Numbers are modelled
as exact rationals. -/
inductive JValue where
  | null : JValue
  | bool (b : Bool) : JValue
  | num (q : ℚ) : JValue
  | str (s : String) : JValue
  | arr (xs : List JValue) : JValue
  | obj (fields : List (String × JValue)) : JValue
deriving Repr

/-- Lookup of a key in a JSON object (`dict.get(key)` with no default);
Python dict keys are unique, `find?` returns the binding if present. -/
def jLookup (fields : List (String × JValue)) (key : String) : Option JValue :=
  (fields.find? (fun kv => kv.1 == key)).map (fun kv => kv.2)

/-- Python truthiness of a JSON value (`bool(x)`). -/
def truthy : JValue → Bool
  | .null => false
  | .bool b => b
  | .num q => q != 0
  | .str s => s != ""
  | .arr xs => !xs.isEmpty
  | .obj fs => !fs.isEmpty

/-- Errors a `load_segments` call can raise.  `parseFailure` models a
`json.loads` failure on the document; `coercionError` models
`float(...)` raising `ValueError`/`TypeError` on a present field value;
`attributeError` models calling `.get`/`.strip` on a value that lacks it;
`typeError` models iterating a non-iterable. -/
inductive LoadError where
  | parseFailure : LoadError
  | coercionError : LoadError
  | attributeError : LoadError
  | typeError : LoadError
deriving Repr, DecidableEq

/-- The whitespace characters `str.strip()` removes (ASCII subset). -/
def isPySpace (c : Char) : Bool :=
  c = ' ' || c = '\t' || c = '\n' || c = '\r' || c = '\x0b' || c = '\x0c'

/-- Leading and trailing whitespace removal on the character list. -/
def stripChars (cs : List Char) : List Char :=
  ((cs.dropWhile isPySpace).reverse.dropWhile isPySpace).reverse

/-- Python `str.strip()`. -/
def pyStrip (s : String) : String :=
  ⟨stripChars s.data⟩

/-- A decimal digit. -/
def isDigitChar (c : Char) : Bool :=
  '0' ≤ c && c ≤ '9'

/-- The natural number a digit string denotes. -/
def digitsVal (cs : List Char) : ℕ :=
  cs.foldl (fun acc c => acc * 10 + (c.toNat - 48)) 0

/-- An unsigned decimal number: digits with an optional decimal point,
at least one digit in total (`"1"`, `"1."`, `".5"`, `"1.5"`). -/
def parseUnsigned (cs : List Char) : Option ℚ :=
  let intPart := cs.takeWhile isDigitChar
  let rest := cs.dropWhile isDigitChar
  match rest with
  | [] => if intPart.isEmpty then none else some (digitsVal intPart : ℚ)
  | '.' :: frac =>
    if frac.all isDigitChar then
      if intPart.isEmpty && frac.isEmpty then none
      else some ((digitsVal intPart : ℚ) + (digitsVal frac : ℚ) / (10 ^ frac.length : ℚ))
    else none
  | _ => none

/-- Decimal-string parsing as accepted by Python `float(str)`: optional
surrounding whitespace, optional sign, digits with an optional decimal
point.  (Exponent, `inf`/`nan` and underscore forms are omitted: no
transcript field in the claims uses a string number at all.) -/
def parsePyFloat (s : String) : Option ℚ :=
  match stripChars s.data with
  | [] => none
  | '-' :: cs => (parseUnsigned cs).map (fun q => -q)
  | '+' :: cs => parseUnsigned cs
  | cs => parseUnsigned cs

/-- Python `float(x)` on a JSON value: numbers pass through, booleans
coerce to 0/1, numeric strings parse, everything else raises. -/
def pyFloat : JValue → Except LoadError ℚ
  | .num q => .ok q
  | .bool b => .ok (if b then 1 else 0)
  | .str s =>
    match parsePyFloat s with
    | some q => .ok q
    | none => .error .coercionError
  | _ => .error .coercionError

/-- Python `(x or "").strip()`: a falsy value becomes `""`, a truthy
string is trimmed, any other truthy value raises `AttributeError`. -/
def pyTextStrip (v : JValue) : Except LoadError String :=
  if truthy v then
    match v with
    | .str s => .ok (pyStrip s)
    | _ => .error .attributeError
  else .ok ""

/-- A diarized speech segment (`Segment` dataclass); `stop` models the
Python field `end` (a Lean keyword). -/
structure Segment where
  speaker : String
  text : String
  start : ℚ
  stop : ℚ
deriving Repr, DecidableEq

/-- Reading the speaker label out of the defaulted `speaker` value.  The
source stores whatever JSON value is present; labels are strings in every
transcript the upstream tool emits, and a non-string label (which the
source would carry along unchanged into the f-string renderer) is outside
the model and mapped to an error. -/
def pySpeakerStr : JValue → Except LoadError String
  | .str s => .ok s
  | _ => .error .attributeError

/-- One iteration of the loop body of `load_segments` on a raw record:
`.ok none` is the `continue` for an empty-text record, `.ok (some seg)`
appends a segment, `.error` models an uncaught exception (which, as in
the source, prevents the later field coercions from running). -/
def rawToSegment (raw : JValue) : Except LoadError (Option Segment) :=
  match raw with
  | .obj fields =>
    match pyTextStrip ((jLookup fields "text").getD .null) with
    | .error e => .error e
    | .ok text =>
      if text = "" then .ok none
      else
        match pySpeakerStr ((jLookup fields "speaker").getD (.str "SPEAKER")) with
        | .error e => .error e
        | .ok speaker =>
          match pyFloat ((jLookup fields "start").getD (.num 0)) with
          | .error e => .error e
          | .ok start =>
            match pyFloat ((jLookup fields "end").getD (.num 0)) with
            | .error e => .error e
            | .ok stop =>
              .ok (some { speaker := speaker, text := text, start := start, stop := stop })
  | _ => .error .attributeError

/-- The record loop of `load_segments`: records processed in order, the
first raised exception propagates. -/
def loadRecords : List JValue → Except LoadError (List Segment)
  | [] => .ok []
  | r :: rs =>
    match rawToSegment r with
    | .error e => .error e
    | .ok s? =>
      match loadRecords rs with
      | .error e => .error e
      | .ok rest =>
        match s? with
        | some s => .ok (s :: rest)
        | none => .ok rest

/-- `data.get("segments", [])` followed by iteration: a missing key yields
no records, a list yields its elements, a dict iterates its keys, a string
iterates its characters, other values are not iterable. -/
def segmentsOf : JValue → Except LoadError (List JValue)
  | .obj fields =>
    match jLookup fields "segments" with
    | none => .ok []
    | some (.arr xs) => .ok xs
    | some (.obj fs) => .ok (fs.map (fun kv => .str kv.1))
    | some (.str s) => .ok (s.data.map (fun c => .str (String.singleton c)))
    | some _ => .error .typeError
  | _ => .error .attributeError

/-- `load_segments`: the argument is the outcome of `json.loads` on the
file contents (`.error ()` for an unparseable document, which propagates). -/
def load_segments (parsed : Except Unit JValue) : Except LoadError (List Segment) :=
  match parsed with
  | .error _ => .error .parseFailure
  | .ok d =>
    match segmentsOf d with
    | .error e => .error e
    | .ok recs => loadRecords recs

/-- Python `int(x)` on a rational: truncation toward zero. -/
def pyInt (q : ℚ) : ℤ :=
  if 0 ≤ q then ⌊q⌋ else ⌈q⌉

/-- `f"{n:02d}"`: zero-pad to two characters. -/
def pad2 (n : ℤ) : String :=
  if 0 ≤ n ∧ n < 10 then "0" ++ toString n else toString n

/-- `_format_time`: truncate to whole seconds, then two `divmod`s
(Python floor division) and zero-padded fields. -/
def format_time (timestamp : ℚ) : String :=
  let seconds := pyInt timestamp
  let minutes := seconds.fdiv 60
  let secondsR := seconds.fmod 60
  let hours := minutes.fdiv 60
  let minutesR := minutes.fmod 60
  pad2 hours ++ ":" ++ pad2 minutesR ++ ":" ++ pad2 secondsR

/-- The `pretty_time` property of `Segment`. -/
def Segment.pretty_time (s : Segment) : String :=
  "[" ++ format_time s.start ++ "–" ++ format_time s.stop ++ "]"

/-- `dict.get(key, default)` over an association list with unique keys. -/
def dictGetD (mapping : List (String × String)) (key default : String) : String :=
  match mapping.find? (fun kv => kv.1 == key) with
  | some kv => kv.2
  | none => default

/-- `apply_speaker_map`. -/
def apply_speaker_map (segments : List Segment) (mapping : List (String × String)) :
    List Segment :=
  segments.map (fun segment =>
    { speaker := dictGetD mapping segment.speaker segment.speaker
      text := segment.text
      start := segment.start
      stop := segment.stop })

/-- `segments_to_text`: one f-string line per segment, joined by `"\n"`. -/
def segments_to_text (segments : List Segment) : String :=
  String.intercalate "\n"
    (segments.map (fun segment =>
      segment.pretty_time ++ " " ++ segment.speaker ++ ": " ++ segment.text))

/-! ## `app/speaker_enrollment.py` -/

/-- `EnrollmentError` raised inside `_cut_wav`. -/
inductive EnrollmentError where
  | nonPositiveDuration : EnrollmentError
  | ffmpegFailed (code : ℤ) : EnrollmentError
deriving Repr, DecidableEq

/-- `_cut_wav`: the ffmpeg sub-process is an oracle; `exitCode` is the
return code it would report for this invocation. -/
def cut_wav (start stop : ℚ) (exitCode : ℤ) : Except EnrollmentError Unit :=
  let duration : ℚ := max 0 (stop - start)
  if duration ≤ 0 then .error .nonPositiveDuration
  else if exitCode ≠ 0 then .error (.ffmpegFailed exitCode)
  else .ok ()

/-- One record of the `segments` argument of `enroll_speakers` — a dict
with the keys the callers populate.  `none` models a missing key
(`.get` default applies); a falsy (`""`/missing) speaker is skipped. -/
structure EnrollRecord where
  speaker : Option String
  start : Option ℚ
  stop : Option ℚ
deriving Repr, DecidableEq

/-- The duration of a `(start, end)` window. -/
def winDur (w : ℚ × ℚ) : ℚ := w.2 - w.1

/-- `grouped.setdefault(speaker, []).append((start, end))`: Python dicts
keep key insertion order, so the groups are an ordered association list. -/
def addToGroup (groups : List (String × List (ℚ × ℚ))) (code : String) (w : ℚ × ℚ) :
    List (String × List (ℚ × ℚ)) :=
  match groups with
  | [] => [(code, [w])]
  | (c, ws) :: rest =>
    if c = code then (c, ws ++ [w]) :: rest
    else (c, ws) :: addToGroup rest code w

/-- One iteration of the grouping loop of `enroll_speakers`: skip falsy
(missing or empty) speakers, default absent times to 0.0, drop windows
shorter than 2.0 s, append the rest to the speaker's group. -/
def groupStep (groups : List (String × List (ℚ × ℚ))) (seg : EnrollRecord) :
    List (String × List (ℚ × ℚ)) :=
  match seg.speaker with
  | none => groups
  | some code =>
    if code = "" then groups
    else
      let start := seg.start.getD 0
      let stop := seg.stop.getD 0
      if stop - start < 2 then groups
      else addToGroup groups code (start, stop)

/-- The grouping loop of `enroll_speakers`. -/
def groupSegments (segments : List EnrollRecord) : List (String × List (ℚ × ℚ)) :=
  segments.foldl groupStep []

/-- Stable insertion keeping durations in descending order: a window is
placed before the first strictly shorter one. -/
def insertWindow (w : ℚ × ℚ) : List (ℚ × ℚ) → List (ℚ × ℚ)
  | [] => [w]
  | v :: vs => if winDur v < winDur w then w :: v :: vs else v :: insertWindow w vs

/-- `windows.sort(key=duration, reverse=True)`: stable descending sort by
duration (windows of equal duration keep their input order, as CPython's
stable sort with `reverse=True` does). -/
def sortWindowsDesc (ws : List (ℚ × ℚ)) : List (ℚ × ℚ) :=
  ws.foldl (fun acc w => insertWindow w acc) []

/-- `np.mean(np.stack(embeddings, axis=0), axis=0)`: element-wise mean of
a non-empty family of equal-length vectors.  The subsequent
`.astype("float32")` narrowing is the identity in this exact-rational
model. -/
def npMean (vectors : List (List ℚ)) : List ℚ :=
  match vectors with
  | [] => []
  | v :: rest =>
    (rest.foldl (fun acc w => acc.zipWith (fun a b => a + b) w) v).map
      (fun a => a / (vectors.length : ℚ))

/-- The inner `for idx, (start, end) in enumerate(windows[:cap])` loop:
cut each selected window (a raised `EnrollmentError` propagates and
aborts everything) and collect the extracted embedding vectors. -/
def cutAndEmbed (embed : ℚ × ℚ → List ℚ) (exit : ℚ × ℚ → ℤ) :
    List (ℚ × ℚ) → Except EnrollmentError (List (List ℚ))
  | [] => .ok []
  | w :: ws =>
    match cut_wav w.1 w.2 (exit w) with
    | .error e => .error e
    | .ok _ =>
      match cutAndEmbed embed exit ws with
      | .error e => .error e
      | .ok rest => .ok (embed w :: rest)

/-- The per-speaker body of `enroll_speakers`: sort descending by
duration, cap, cut-and-embed every selected window, and average;
`.ok none` when no embedding was produced (no file written). -/
def processSpeaker (speaker_map : List (String × String)) (embed : ℚ × ℚ → List ℚ)
    (exit : ℚ × ℚ → ℤ) (maxSegments : ℕ) (code : String) (windows : List (ℚ × ℚ)) :
    Except EnrollmentError (Option (String × List ℚ)) :=
  match cutAndEmbed embed exit ((sortWindowsDesc windows).take maxSegments) with
  | .error e => .error e
  | .ok embeddings =>
    if embeddings.isEmpty then .ok none
    else .ok (some (dictGetD speaker_map code code ++ ".npy", npMean embeddings))

/-- The outer per-speaker loop over the grouped dict. -/
def enrollGroups (speaker_map : List (String × String)) (embed : ℚ × ℚ → List ℚ)
    (exit : ℚ × ℚ → ℤ) (maxSegments : ℕ) :
    List (String × List (ℚ × ℚ)) → Except EnrollmentError (List (String × List ℚ))
  | [] => .ok []
  | (code, windows) :: rest =>
    match processSpeaker speaker_map embed exit maxSegments code windows with
    | .error e => .error e
    | .ok r? =>
      match enrollGroups speaker_map embed exit maxSegments rest with
      | .error e => .error e
      | .ok created =>
        match r? with
        | some entry => .ok (entry :: created)
        | none => .ok created

/-- `enroll_speakers`: the returned `created` list holds, per persisted
speaker, the `.npy` file name and the saved mean vector.  `embed` is the
pretrained embedding model, `exit` the ffmpeg exit status, both oracles
over the cut window. -/
def enroll_speakers (segments : List EnrollRecord) (speaker_map : List (String × String))
    (embed : ℚ × ℚ → List ℚ) (exit : ℚ × ℚ → ℤ) (maxSegments : ℕ := 5) :
    Except EnrollmentError (List (String × List ℚ)) :=
  enrollGroups speaker_map embed exit maxSegments (groupSegments segments)

/-! ## `app/pipeline.py` -/

/-- The observable outcome of the post-recognition tail of
`AudioDiarizationPipeline.process` (from `load_segments` on): whether the
transcript file was written and with what content, the warnings logged,
and whether a `PipelineResult` was returned (no exception escaped). -/
structure PipelineOutcome where
  transcriptWritten : Bool
  transcript : String
  warnings : List String
  delivered : Bool
deriving Repr, DecidableEq

/-- `LOGGER.warning("Speaker enrollment failed: %s", exc)`. -/
def enrollWarning (e : EnrollmentError) : String :=
  "Speaker enrollment failed: " ++ reprStr e

/-- The enrollment call site: `process` rebuilds dict records from the
original (pre-remap) segments. -/
def recordsOfSegments (segments : List Segment) : List EnrollRecord :=
  segments.map (fun s => { speaker := some s.speaker, start := some s.start, stop := some s.stop })

/-- The tail of `AudioDiarizationPipeline.process`: remap, write the
transcript, then — only if the speaker map is non-empty — run enrollment,
catching `EnrollmentError` and downgrading it to a logged warning. -/
def processPost (segments : List Segment) (speaker_map : List (String × String))
    (embed : ℚ × ℚ → List ℚ) (exit : ℚ × ℚ → ℤ) : PipelineOutcome :=
  let mapped := apply_speaker_map segments speaker_map
  let transcript := segments_to_text mapped
  let warnings :=
    if speaker_map.isEmpty then []
    else
      match enroll_speakers (recordsOfSegments segments) speaker_map embed exit with
      | .ok _ => []
      | .error e => [enrollWarning e]
  { transcriptWritten := true
    transcript := transcript
    warnings := warnings
    delivered := true }

/-! ## Spec-side definitions (written from the specification's words, for
refinement comparisons) and small helpers used only in statements. -/

/-- The trimmed text of a raw record, as the loader computes it (used to
say which records are skipped). -/
def strippedText (raw : JValue) : Except LoadError String :=
  match raw with
  | .obj fields => pyTextStrip ((jLookup fields "text").getD .null)
  | _ => .error .attributeError

/-- Whether the loader's loop skips this record (`continue`). -/
def isSkipped (raw : JValue) : Bool :=
  match rawToSegment raw with
  | .ok none => true
  | _ => false

/-- The segment a surviving record contributes, if any. -/
def keptSegment (raw : JValue) : Option Segment :=
  match rawToSegment raw with
  | .ok o => o
  | .error _ => none

/-- Spec-side time format: `HH:MM:SS`, each component truncated (not
rounded) to whole seconds. -/
def specFormatTime (q : ℚ) : String :=
  let total : ℕ := ⌊q⌋.toNat
  pad2 ((total / 3600 : ℕ) : ℤ) ++ ":" ++ pad2 (((total % 3600) / 60 : ℕ) : ℤ) ++ ":" ++
    pad2 ((total % 60 : ℕ) : ℤ)

/-- Spec-side rendering: one line per segment in the exact format
`[HH:MM:SS–HH:MM:SS] <speaker>: <text>`, joined by a single newline with
no trailing newline. -/
def specRender (segments : List Segment) : String :=
  String.intercalate "\n" (segments.map (fun s =>
    "[" ++ specFormatTime s.start ++ "–" ++ specFormatTime s.stop ++ "]" ++ " " ++
      s.speaker ++ ": " ++ s.text))

/-- The load-then-render composition of the post-processing path. -/
def loadRender (parsed : Except Unit JValue) : Except LoadError String :=
  (load_segments parsed).map segments_to_text

/-! ## Lemmas about the loader -/

/-- Splitting a successful, non-skipping `rawToSegment` run into the four
field computations of the source loop body. -/
lemma rawToSegment_ok_some {fields : List (String × JValue)} {seg : Segment}
    (h : rawToSegment (.obj fields) = .ok (some seg)) :
    pyTextStrip ((jLookup fields "text").getD .null) = .ok seg.text ∧ seg.text ≠ "" ∧
    pySpeakerStr ((jLookup fields "speaker").getD (.str "SPEAKER")) = .ok seg.speaker ∧
    pyFloat ((jLookup fields "start").getD (.num 0)) = .ok seg.start ∧
    pyFloat ((jLookup fields "end").getD (.num 0)) = .ok seg.stop := by
  unfold rawToSegment at h
  dsimp only at h
  revert h
  cases ht : pyTextStrip ((jLookup fields "text").getD .null) with
  | error e => intro h; simp at h
  | ok text =>
    intro h
    dsimp only at h
    by_cases hte : text = ""
    · rw [if_pos hte] at h; simp at h
    · rw [if_neg hte] at h
      revert h
      cases hs : pySpeakerStr ((jLookup fields "speaker").getD (.str "SPEAKER")) with
      | error e => intro h; simp at h
      | ok speaker =>
        intro h
        dsimp only at h
        revert h
        cases hst : pyFloat ((jLookup fields "start").getD (.num 0)) with
        | error e => intro h; simp at h
        | ok start =>
          intro h
          dsimp only at h
          revert h
          cases hen : pyFloat ((jLookup fields "end").getD (.num 0)) with
          | error e => intro h; simp at h
          | ok stop =>
            intro h
            dsimp only at h
            simp only [Except.ok.injEq, Option.some.injEq] at h
            subst h
            exact ⟨rfl, hte, rfl, rfl, rfl⟩

/-- The loader's loop skips a record exactly when its text field strips
to the empty string. -/
lemma isSkipped_iff (raw : JValue) : isSkipped raw = true ↔ strippedText raw = .ok "" := by
  cases raw with
  | obj fields =>
    unfold isSkipped strippedText rawToSegment
    dsimp only
    cases ht : pyTextStrip ((jLookup fields "text").getD .null) with
    | error e => simp
    | ok text =>
      dsimp only
      by_cases hte : text = ""
      · rw [if_pos hte]; subst hte; simp
      · rw [if_neg hte]
        cases hs : pySpeakerStr ((jLookup fields "speaker").getD (.str "SPEAKER")) with
        | error e => simp [hte]
        | ok speaker =>
          dsimp only
          cases hst : pyFloat ((jLookup fields "start").getD (.num 0)) with
          | error e => simp [hte]
          | ok start =>
            dsimp only
            cases hen : pyFloat ((jLookup fields "end").getD (.num 0)) with
            | error e => simp [hte]
            | ok stop => simp [hte]
  | null => simp [isSkipped, strippedText, rawToSegment]
  | bool b => simp [isSkipped, strippedText, rawToSegment]
  | num q => simp [isSkipped, strippedText, rawToSegment]
  | str s => simp [isSkipped, strippedText, rawToSegment]
  | arr xs => simp [isSkipped, strippedText, rawToSegment]

/-- A successful `loadRecords` run is an order-preserving `filterMap`,
and shorter than the record list by exactly the number of skipped
records. -/
lemma loadRecords_ok_spec {rs : List JValue} {segs : List Segment}
    (h : loadRecords rs = .ok segs) :
    segs = rs.filterMap keptSegment ∧
    segs.length + rs.countP isSkipped = rs.length := by
  induction rs generalizing segs with
  | nil =>
    obtain rfl := (Except.ok.inj h).symm
    simp
  | cons r rs ih =>
    unfold loadRecords at h
    split at h
    · exact Except.noConfusion h
    · rename_i s? hr
      split at h
      · exact Except.noConfusion h
      · rename_i rest hrest
        obtain ⟨h1, h2⟩ := ih hrest
        cases s? with
        | some s =>
          obtain rfl := (Except.ok.inj h).symm
          have hsk : isSkipped r = false := by simp [isSkipped, hr]
          refine ⟨?_, ?_⟩
          · simp [List.filterMap_cons, keptSegment, hr, h1]
          · simp only [List.countP_cons, hsk, List.length_cons]
            simp only [Bool.false_eq_true, if_false]
            omega
        | none =>
          obtain rfl := (Except.ok.inj h).symm
          have hsk : isSkipped r = true := by simp [isSkipped, hr]
          refine ⟨?_, ?_⟩
          · simp [List.filterMap_cons, keptSegment, hr, h1]
          · simp only [List.countP_cons, hsk, List.length_cons, if_true]
            omega

/-- An exception raised on a record aborts the whole load. -/
lemma loadRecords_error_propagates {r : JValue} {e : LoadError} (rs : List JValue)
    (h : rawToSegment r = .error e) : loadRecords (r :: rs) = .error e := by
  unfold loadRecords
  rw [h]

/-! ## Lemmas about the renderer -/

/-- For non-negative timestamps the source formatter agrees with the
spec-side `HH:MM:SS` truncation formatter. -/
lemma format_time_eq_spec (q : ℚ) (h : 0 ≤ q) : format_time q = specFormatTime q := by
  unfold format_time specFormatTime pyInt
  rw [if_pos h]
  have h0 : (0:ℤ) ≤ ⌊q⌋ := Int.floor_nonneg.mpr h
  obtain ⟨n, hn⟩ := Int.eq_ofNat_of_zero_le h0
  rw [hn]
  have e1 : ((n:ℤ).fdiv 60).fdiv 60 = ((n / 3600 : ℕ) : ℤ) := by
    rw [Int.fdiv_eq_ediv _ (by norm_num), Int.fdiv_eq_ediv _ (by norm_num)]
    omega
  have e2 : ((n:ℤ).fdiv 60).fmod 60 = (((n % 3600) / 60 : ℕ) : ℤ) := by
    rw [Int.fdiv_eq_ediv _ (by norm_num), Int.fmod_eq_emod _ (by norm_num)]
    omega
  have e3 : (n:ℤ).fmod 60 = ((n % 60 : ℕ) : ℤ) := by
    rw [Int.fmod_eq_emod _ (by norm_num)]
    omega
  simp only [Int.toNat_natCast, e1, e2, e3]

/-! ## Lemmas about grouping and window selection -/

/-- Invariant of the grouped dict: every group is non-empty and every
stored window lasts at least the 2.0 s threshold. -/
def GroupsWF (groups : List (String × List (ℚ × ℚ))) : Prop :=
  ∀ p ∈ groups, p.2 ≠ [] ∧ ∀ v ∈ p.2, 2 ≤ winDur v

lemma addToGroup_wf {groups : List (String × List (ℚ × ℚ))} {code : String} {w : ℚ × ℚ}
    (hg : GroupsWF groups) (hw : 2 ≤ winDur w) : GroupsWF (addToGroup groups code w) := by
  induction groups with
  | nil =>
    intro p hp
    simp only [addToGroup, List.mem_singleton] at hp
    subst hp
    refine ⟨by simp, ?_⟩
    intro v hv
    simp only [List.mem_singleton] at hv
    subst hv
    exact hw
  | cons q rest ih =>
    obtain ⟨c₀, ws₀⟩ := q
    unfold addToGroup
    by_cases hc : c₀ = code
    · rw [if_pos hc]
      intro p hp
      rcases List.mem_cons.mp hp with rfl | hp'
      · refine ⟨by simp, ?_⟩
        intro v hv
        rcases List.mem_append.mp hv with h1 | h1
        · exact (hg _ (List.mem_cons_self _ _)).2 v h1
        · simp only [List.mem_singleton] at h1
          subst h1
          exact hw
      · exact hg _ (List.mem_cons_of_mem _ hp')
    · rw [if_neg hc]
      intro p hp
      rcases List.mem_cons.mp hp with rfl | hp'
      · exact hg _ (List.mem_cons_self _ _)
      · exact ih (fun r hr => hg _ (List.mem_cons_of_mem _ hr)) _ hp'

lemma groupStep_wf {groups : List (String × List (ℚ × ℚ))} {seg : EnrollRecord}
    (hg : GroupsWF groups) : GroupsWF (groupStep groups seg) := by
  unfold groupStep
  cases seg.speaker with
  | none => exact hg
  | some code =>
    dsimp only
    by_cases hc : code = ""
    · rw [if_pos hc]; exact hg
    · rw [if_neg hc]
      by_cases hshort : seg.stop.getD 0 - seg.start.getD 0 < 2
      · rw [if_pos hshort]; exact hg
      · rw [if_neg hshort]
        exact addToGroup_wf hg (by simpa [winDur] using not_lt.mp hshort)

lemma groupSegments_wf (segments : List EnrollRecord) : GroupsWF (groupSegments segments) := by
  unfold groupSegments
  suffices h : ∀ (segs : List EnrollRecord) (init : List (String × List (ℚ × ℚ))),
      GroupsWF init → GroupsWF (segs.foldl groupStep init) by
    exact h segments [] (fun p hp => absurd hp (List.not_mem_nil p))
  intro segs
  induction segs with
  | nil => intro init h; exact h
  | cons r rs ih =>
    intro init h
    simp only [List.foldl_cons]
    exact ih _ (groupStep_wf h)

lemma insertWindow_perm (w : ℚ × ℚ) (l : List (ℚ × ℚ)) :
    List.Perm (insertWindow w l) (w :: l) := by
  induction l with
  | nil => exact List.Perm.refl _
  | cons v vs ih =>
    unfold insertWindow
    by_cases h : winDur v < winDur w
    · rw [if_pos h]
    · rw [if_neg h]
      exact (ih.cons v).trans (List.Perm.swap w v vs)

lemma sortWindowsDesc_perm (ws : List (ℚ × ℚ)) :
    List.Perm (sortWindowsDesc ws) ws := by
  unfold sortWindowsDesc
  suffices h : ∀ (l acc : List (ℚ × ℚ)),
      List.Perm (l.foldl (fun acc w => insertWindow w acc) acc) (acc ++ l) by
    simpa using h ws []
  intro l
  induction l with
  | nil => intro acc; simp
  | cons w rest ih =>
    intro acc
    simp only [List.foldl_cons]
    refine (ih (insertWindow w acc)).trans ?_
    refine (((insertWindow_perm w acc).append_right rest).trans ?_)
    exact List.perm_middle.symm

lemma insertWindow_sorted {l : List (ℚ × ℚ)} (w : ℚ × ℚ)
    (h : l.Pairwise (fun a b => winDur b ≤ winDur a)) :
    (insertWindow w l).Pairwise (fun a b => winDur b ≤ winDur a) := by
  induction l with
  | nil => simp [insertWindow]
  | cons v vs ih =>
    obtain ⟨hv, hvs⟩ := List.pairwise_cons.mp h
    unfold insertWindow
    by_cases hlt : winDur v < winDur w
    · rw [if_pos hlt]
      refine List.pairwise_cons.mpr ⟨?_, h⟩
      intro u hu
      rcases List.mem_cons.mp hu with rfl | hu'
      · exact le_of_lt hlt
      · exact le_trans (hv u hu') (le_of_lt hlt)
    · rw [if_neg hlt]
      refine List.pairwise_cons.mpr ⟨?_, ih hvs⟩
      intro u hu
      rcases List.mem_cons.mp ((insertWindow_perm w vs).mem_iff.mp hu) with rfl | hu'
      · exact not_lt.mp hlt
      · exact hv u hu'

lemma sortWindowsDesc_sorted (ws : List (ℚ × ℚ)) :
    (sortWindowsDesc ws).Pairwise (fun a b => winDur b ≤ winDur a) := by
  unfold sortWindowsDesc
  suffices h : ∀ (l acc : List (ℚ × ℚ)),
      acc.Pairwise (fun a b => winDur b ≤ winDur a) →
      (l.foldl (fun acc w => insertWindow w acc) acc).Pairwise
        (fun a b => winDur b ≤ winDur a) by
    exact h ws [] (by simp)
  intro l
  induction l with
  | nil => intro acc h; exact h
  | cons w rest ih =>
    intro acc h
    simp only [List.foldl_cons]
    exact ih _ (insertWindow_sorted w h)

/-! ## Lemmas about enrollment -/

lemma cut_wav_ok {start stop : ℚ} {e : ℤ} {u : Unit}
    (h : cut_wav start stop e = .ok u) : 0 < stop - start ∧ e = 0 := by
  unfold cut_wav at h
  by_cases hd : max 0 (stop - start) ≤ (0:ℚ)
  · rw [if_pos hd] at h
    simp at h
  · rw [if_neg hd] at h
    by_cases he : e ≠ 0
    · rw [if_pos he] at h
      simp at h
    · rw [if_neg he] at h
      refine ⟨?_, not_not.mp he⟩
      by_contra hle
      push_neg at hle
      exact hd (max_le le_rfl hle)

lemma cutAndEmbed_ok {embed : ℚ × ℚ → List ℚ} {exit : ℚ × ℚ → ℤ} :
    ∀ {sel : List (ℚ × ℚ)} {es : List (List ℚ)},
    cutAndEmbed embed exit sel = .ok es →
    es = sel.map embed ∧ ∀ w ∈ sel, exit w = 0 ∧ 0 < w.2 - w.1 := by
  intro sel
  induction sel with
  | nil =>
    intro es h
    obtain rfl := (Except.ok.inj h).symm
    simp
  | cons w ws ih =>
    intro es h
    unfold cutAndEmbed at h
    revert h
    cases hc : cut_wav w.1 w.2 (exit w) with
    | error e => intro h; simp at h
    | ok u =>
      intro h
      dsimp only at h
      revert h
      cases hr : cutAndEmbed embed exit ws with
      | error e => intro h; simp at h
      | ok rest =>
        intro h
        dsimp only at h
        obtain rfl := (Except.ok.inj h).symm
        obtain ⟨h1, h2⟩ := ih hr
        obtain ⟨hd, he⟩ := cut_wav_ok hc
        refine ⟨by simp [h1], ?_⟩
        intro v hv
        rcases List.mem_cons.mp hv with rfl | hv'
        · exact ⟨he, hd⟩
        · exact h2 v hv'

lemma processSpeaker_ok {speaker_map : List (String × String)} {embed : ℚ × ℚ → List ℚ}
    {exit : ℚ × ℚ → ℤ} {maxSegments : ℕ} {code : String} {windows : List (ℚ × ℚ)}
    {r : Option (String × List ℚ)}
    (h : processSpeaker speaker_map embed exit maxSegments code windows = .ok r) :
    (∀ w ∈ (sortWindowsDesc windows).take maxSegments, exit w = 0 ∧ 0 < w.2 - w.1) ∧
    r = (if ((sortWindowsDesc windows).take maxSegments).isEmpty then none
         else some (dictGetD speaker_map code code ++ ".npy",
             npMean (((sortWindowsDesc windows).take maxSegments).map embed))) := by
  unfold processSpeaker at h
  revert h
  cases hc : cutAndEmbed embed exit ((sortWindowsDesc windows).take maxSegments) with
  | error e => intro h; simp at h
  | ok es =>
    intro h
    dsimp only at h
    obtain ⟨h1, h2⟩ := cutAndEmbed_ok hc
    subst h1
    refine ⟨h2, ?_⟩
    have hmapemp : (((sortWindowsDesc windows).take maxSegments).map embed).isEmpty =
        ((sortWindowsDesc windows).take maxSegments).isEmpty := by
      cases (sortWindowsDesc windows).take maxSegments <;> simp
    rw [hmapemp] at h
    by_cases hemp : ((sortWindowsDesc windows).take maxSegments).isEmpty
    · rw [if_pos hemp] at h
      rw [if_pos hemp]
      exact (Except.ok.inj h).symm
    · rw [if_neg hemp] at h
      rw [if_neg hemp]
      exact (Except.ok.inj h).symm

/-- What a fully successful enrollment run produces: every selected
window of every group was cut with exit status 0 and positive duration,
and the created files are exactly one per group with a non-empty
selection, named after the mapped display name. -/
lemma enrollGroups_ok {speaker_map : List (String × String)} {embed : ℚ × ℚ → List ℚ}
    {exit : ℚ × ℚ → ℤ} {maxSegments : ℕ} :
    ∀ {groups : List (String × List (ℚ × ℚ))} {created : List (String × List ℚ)},
    enrollGroups speaker_map embed exit maxSegments groups = .ok created →
    (∀ p ∈ groups, ∀ w ∈ (sortWindowsDesc p.2).take maxSegments,
      exit w = 0 ∧ 0 < w.2 - w.1) ∧
    created = groups.filterMap (fun p =>
      if ((sortWindowsDesc p.2).take maxSegments).isEmpty then none
      else some (dictGetD speaker_map p.1 p.1 ++ ".npy",
        npMean (((sortWindowsDesc p.2).take maxSegments).map embed))) := by
  intro groups
  induction groups with
  | nil =>
    intro created h
    obtain rfl := (Except.ok.inj h).symm
    simp
  | cons q rest ih =>
    obtain ⟨code, windows⟩ := q
    intro created h
    unfold enrollGroups at h
    revert h
    cases hps : processSpeaker speaker_map embed exit maxSegments code windows with
    | error e => intro h; simp at h
    | ok r? =>
      intro h
      dsimp only at h
      revert h
      cases hrest : enrollGroups speaker_map embed exit maxSegments rest with
      | error e => intro h; simp at h
      | ok created' =>
        intro h
        dsimp only at h
        obtain ⟨hw, hr⟩ := processSpeaker_ok hps
        obtain ⟨hw', hcr⟩ := ih hrest
        have hall : ∀ p ∈ (code, windows) :: rest,
            ∀ w ∈ (sortWindowsDesc p.2).take maxSegments, exit w = 0 ∧ 0 < w.2 - w.1 := by
          intro p hp
          rcases List.mem_cons.mp hp with rfl | hp'
          · exact hw
          · exact hw' p hp'
        cases r? with
        | some entry =>
          obtain rfl := (Except.ok.inj h).symm
          refine ⟨hall, ?_⟩
          rw [List.filterMap_cons]
          dsimp only
          rw [← hr, hcr]
        | none =>
          obtain rfl := (Except.ok.inj h).symm
          refine ⟨hall, ?_⟩
          rw [List.filterMap_cons]
          dsimp only
          rw [← hr, hcr]

/-! ## Lemmas about the mean embedding -/

lemma getD_zipWith_add :
    ∀ (a b : List ℚ) (i : ℕ), i < a.length → i < b.length →
    (a.zipWith (fun x y => x + y) b).getD i 0 = a.getD i 0 + b.getD i 0 := by
  intro a
  induction a with
  | nil => intro b i h _; simp at h
  | cons x xs ih =>
    intro b i ha hb
    cases b with
    | nil => simp at hb
    | cons y ys =>
      cases i with
      | zero => simp
      | succ n =>
        simp only [List.zipWith_cons_cons, List.getD_cons_succ]
        exact ih ys n (by simpa using ha) (by simpa using hb)

lemma foldl_zipWith_spec (n : ℕ) :
    ∀ (tl : List (List ℚ)) (acc : List ℚ), acc.length = n → (∀ v ∈ tl, v.length = n) →
    (tl.foldl (fun acc w => acc.zipWith (fun a b => a + b) w) acc).length = n ∧
    ∀ i < n, (tl.foldl (fun acc w => acc.zipWith (fun a b => a + b) w) acc).getD i 0 =
      acc.getD i 0 + (tl.map (fun v => v.getD i 0)).sum := by
  intro tl
  induction tl with
  | nil =>
    intro acc ha _
    exact ⟨ha, by simp⟩
  | cons w ws ih =>
    intro acc ha hall
    have hw : w.length = n := hall w (List.mem_cons_self _ _)
    have hacc : (acc.zipWith (fun a b => a + b) w).length = n := by
      rw [List.length_zipWith, ha, hw, min_self]
    obtain ⟨hl, hg⟩ := ih (acc.zipWith (fun a b => a + b) w) hacc
      (fun v hv => hall v (List.mem_cons_of_mem _ hv))
    refine ⟨by simpa using hl, ?_⟩
    intro i hi
    simp only [List.foldl_cons]
    rw [hg i hi, getD_zipWith_add acc w i (by rw [ha]; exact hi) (by rw [hw]; exact hi)]
    simp only [List.map_cons, List.sum_cons]
    ring

/-- `npMean` really is the element-wise arithmetic mean of a non-empty
family of equal-length vectors. -/
lemma npMean_spec {vs : List (List ℚ)} {n : ℕ} (hne : vs ≠ [])
    (hall : ∀ v ∈ vs, v.length = n) :
    (npMean vs).length = n ∧
    ∀ i < n, (npMean vs).getD i 0 =
      (vs.map (fun v => v.getD i 0)).sum / (vs.length : ℚ) := by
  cases vs with
  | nil => exact absurd rfl hne
  | cons v tl =>
    unfold npMean
    obtain ⟨hl, hg⟩ := foldl_zipWith_spec n tl v (hall v (List.mem_cons_self _ _))
      (fun u hu => hall u (List.mem_cons_of_mem _ hu))
    refine ⟨by simpa using hl, ?_⟩
    intro i hi
    have hilt : i < (tl.foldl (fun acc w => acc.zipWith (fun a b => a + b) w) v).length := by
      rw [hl]; exact hi
    have hmap : i < ((tl.foldl (fun acc w => acc.zipWith (fun a b => a + b) w) v).map
        (fun a => a / (((v :: tl).length : ℕ) : ℚ))).length := by
      simpa using hilt
    rw [List.getD_eq_getElem _ _ hmap]
    rw [List.getElem_map]
    rw [← List.getD_eq_getElem _ (0:ℚ) hilt]
    rw [hg i hi]
    simp only [List.map_cons, List.sum_cons, List.length_cons]

/-! ## Claims -/

/-- C1: in the `enroll_speakers` grouping, windows shorter than 2.0 s
are excluded entirely (every grouped window lasts at least 2.0 s); each
group's sorted window list is a permutation of the group in
non-increasing duration order, and taking the cap selects at most `cap`
windows; concretely, for a speaker with 7 eligible windows (plus one
too-short and one empty-speaker record, both excluded) and a cap of 5,
exactly the 5 longest-duration windows are selected, in
descending-duration order. -/
theorem claim_C1 :
    (∀ (segments : List EnrollRecord) (p : String × List (ℚ × ℚ)),
      p ∈ groupSegments segments →
        (∀ v ∈ p.2, 2 ≤ winDur v) ∧
        List.Perm (sortWindowsDesc p.2) p.2 ∧
        (sortWindowsDesc p.2).Pairwise (fun a b => winDur b ≤ winDur a) ∧
        ∀ cap : ℕ, ((sortWindowsDesc p.2).take cap).length ≤ cap) ∧
    groupSegments
        [{ speaker := some "S", start := some 0, stop := some 4 },
         { speaker := some "S", start := some 10, stop := some 19 },
         { speaker := some "S", start := some 30, stop := some 40 },
         { speaker := some "", start := some 0, stop := some 100 },
         { speaker := some "S", start := some 50, stop := some 56 },
         { speaker := some "S", start := some 70, stop := some 78 },
         { speaker := some "S", start := some 200, stop := some 201 },
         { speaker := some "S", start := some 90, stop := some 95 },
         { speaker := some "S", start := some 110, stop := some 117 }] =
      [("S", [(0, 4), (10, 19), (30, 40), (50, 56), (70, 78), (90, 95), (110, 117)])] ∧
    (sortWindowsDesc
        [(0, 4), (10, 19), (30, 40), (50, 56), (70, 78), (90, 95), (110, 117)]).take 5 =
      [(30, 40), (10, 19), (70, 78), (110, 117), (50, 56)] := by
  refine ⟨?_, ?_, ?_⟩
  · intro segments p hp
    refine ⟨(groupSegments_wf segments p hp).2, sortWindowsDesc_perm p.2,
      sortWindowsDesc_sorted p.2, fun cap => ?_⟩
    exact List.length_take_le cap _
  · norm_num [groupSegments, groupStep, addToGroup]
    intro h
    exact absurd h (by decide)
  · norm_num [sortWindowsDesc, insertWindow, winDur]

/-- Witness for C1 at a one-record segment list with one 3 s window. -/
theorem claim_C1_witness :
    (∀ v ∈ [((2:ℚ), (5:ℚ))], 2 ≤ winDur v) ∧
    List.Perm (sortWindowsDesc [((2:ℚ), (5:ℚ))]) [((2:ℚ), (5:ℚ))] ∧
    (sortWindowsDesc [((2:ℚ), (5:ℚ))]).Pairwise (fun a b => winDur b ≤ winDur a) ∧
    ∀ cap : ℕ, ((sortWindowsDesc [((2:ℚ), (5:ℚ))]).take cap).length ≤ cap :=
  claim_C1.1 [{ speaker := some "S", start := some 2, stop := some 5 }] ("S", [(2, 5)])
    (by norm_num [groupSegments, groupStep, addToGroup]; decide)

/-- C10: every window reaching the cut step from `enroll_speakers` has
duration at least 2.0 s (the grouping filter guarantees it), so
`_cut_wav`'s non-positive-duration branch can never fire on these
windows, whatever the sub-process exit status. -/
theorem claim_C10 (segments : List EnrollRecord) (p : String × List (ℚ × ℚ))
    (hp : p ∈ groupSegments segments) (cap : ℕ) (w : ℚ × ℚ)
    (hw : w ∈ (sortWindowsDesc p.2).take cap) (exitCode : ℤ) :
    2 ≤ winDur w ∧ cut_wav w.1 w.2 exitCode ≠ .error .nonPositiveDuration := by
  have hmem : w ∈ p.2 := (sortWindowsDesc_perm p.2).mem_iff.mp (List.mem_of_mem_take hw)
  have hd : 2 ≤ winDur w := (groupSegments_wf segments p hp).2 w hmem
  refine ⟨hd, ?_⟩
  unfold cut_wav
  have h2 : (2:ℚ) ≤ w.2 - w.1 := hd
  have hpos : ¬ (max 0 (w.2 - w.1) ≤ (0:ℚ)) := by
    intro hle
    have hd2 := le_trans (le_max_right (0:ℚ) (w.2 - w.1)) hle
    linarith
  rw [if_neg hpos]
  by_cases he : exitCode ≠ 0
  · rw [if_pos he]
    simp
  · rw [if_neg he]
    simp

/-- Witness for C10 at a concrete 3 s window and exit status 0. -/
theorem claim_C10_witness :
    2 ≤ winDur ((2:ℚ), (5:ℚ)) ∧
    cut_wav 2 5 0 ≠ .error .nonPositiveDuration :=
  claim_C10 [{ speaker := some "S", start := some 2, stop := some 5 }] ("S", [(2, 5)])
    (by norm_num [groupSegments, groupStep, addToGroup]; decide) 5 (2, 5)
    (by norm_num [sortWindowsDesc, insertWindow]) 0

/-- C2 counterexample: a record whose `speaker` key is present with the
empty string loads with an empty speaker label — the placeholder is not
substituted, refuting that an empty (rather than missing) label falls
back to the placeholder. -/
theorem claim_C2_counterexample :
    load_segments (.ok (.obj [("segments",
      .arr [.obj [("speaker", .str ""), ("text", .str "hi")]])])) =
      .ok [{ speaker := "", text := "hi", start := 0, stop := 0 }] ∧
    ("" : String) ≠ "SPEAKER" := by
  exact ⟨rfl, by decide⟩

/-- C2 (amended): the loader substitutes the fixed placeholder label
`"SPEAKER"` only when the record's `speaker` key is missing; a present
string label — including the empty string — is kept verbatim, so a
loaded speaker label can be empty. -/
theorem claim_C2 (fields : List (String × JValue)) (seg : Segment) :
    (jLookup fields "speaker" = none →
      rawToSegment (.obj fields) = .ok (some seg) → seg.speaker = "SPEAKER") ∧
    (∀ s : String, jLookup fields "speaker" = some (.str s) →
      rawToSegment (.obj fields) = .ok (some seg) → seg.speaker = s) := by
  constructor
  · intro hmiss h
    obtain ⟨-, -, hs, -, -⟩ := rawToSegment_ok_some h
    rw [hmiss] at hs
    simp [pySpeakerStr] at hs
    exact hs.symm
  · intro s hpres h
    obtain ⟨-, -, hs, -, -⟩ := rawToSegment_ok_some h
    rw [hpres] at hs
    simp [pySpeakerStr] at hs
    exact hs.symm

/-- Witness for C2 (amended) at a concrete record with no `speaker` key. -/
theorem claim_C2_witness :
    ({ speaker := "SPEAKER", text := "hi", start := 0, stop := 0 } : Segment).speaker =
      "SPEAKER" :=
  (claim_C2 [("text", .str "hi")]
    { speaker := "SPEAKER", text := "hi", start := 0, stop := 0 }).1 rfl rfl

/-- C3 counterexample: a record carrying `"start": null` makes the whole
load raise (the `float(...)` coercion fails), refuting both the claimed
defaulting of non-coercible values to 0.0 and the claim that a
document-level parse failure is the only failure mode. -/
theorem claim_C3_counterexample :
    load_segments (.ok (.obj [("segments",
      .arr [.obj [("text", .str "hi"), ("start", .null)]])])) = .error .coercionError ∧
    LoadError.coercionError ≠ LoadError.parseFailure := by
  exact ⟨rfl, by decide⟩

/-- C3 (amended): `start`/`end` default to 0.0 only when the key is
absent; a present value is passed to `float(...)`, and a non-coercible
present value (e.g. `null`) raises an error that propagates out of the
load, alongside the document-level parse failure which also propagates. -/
theorem claim_C3 (fields : List (String × JValue)) (seg : Segment) :
    (jLookup fields "start" = none →
      rawToSegment (.obj fields) = .ok (some seg) → seg.start = 0) ∧
    (jLookup fields "end" = none →
      rawToSegment (.obj fields) = .ok (some seg) → seg.stop = 0) ∧
    load_segments (.error ()) = .error .parseFailure ∧
    (∀ t s, jLookup fields "start" = some .null →
      pyTextStrip ((jLookup fields "text").getD .null) = .ok t → t ≠ "" →
      pySpeakerStr ((jLookup fields "speaker").getD (.str "SPEAKER")) = .ok s →
      rawToSegment (.obj fields) = .error .coercionError) ∧
    (∀ (r : JValue) (rs : List JValue) (e : LoadError),
      rawToSegment r = .error e → loadRecords (r :: rs) = .error e) := by
  refine ⟨?_, ?_, rfl, ?_, ?_⟩
  · intro hmiss h
    obtain ⟨-, -, -, hst, -⟩ := rawToSegment_ok_some h
    rw [hmiss] at hst
    simp [pyFloat] at hst
    exact hst.symm
  · intro hmiss h
    obtain ⟨-, -, -, -, hen⟩ := rawToSegment_ok_some h
    rw [hmiss] at hen
    simp [pyFloat] at hen
    exact hen.symm
  · intro t s hstart htext hne hspk
    unfold rawToSegment
    dsimp only
    rw [htext]
    dsimp only
    rw [if_neg hne, hspk]
    dsimp only
    rw [hstart]
    simp [pyFloat]
  · intro r rs e he
    exact loadRecords_error_propagates rs he

/-- Witness for C3 (amended) at a concrete record with no time keys. -/
theorem claim_C3_witness :
    ({ speaker := "SPEAKER", text := "hi", start := 0, stop := 0 } : Segment).start = 0 :=
  (claim_C3 [("text", .str "hi")]
    { speaker := "SPEAKER", text := "hi", start := 0, stop := 0 }).1 rfl rfl

/-- C4: rendering yields exactly one line per segment in the exact
format `[HH:MM:SS–HH:MM:SS] <speaker>: <text>`, joined by a single
newline with no trailing newline, with each time component truncated
(not rounded) to whole seconds; in particular start 65.2 and end 70.0
render as `[00:01:05–00:01:10]`. -/
theorem claim_C4 :
    (∀ segments : List Segment, (∀ s ∈ segments, 0 ≤ s.start ∧ 0 ≤ s.stop) →
      segments_to_text segments = specRender segments) ∧
    Segment.pretty_time { speaker := "A", text := "x", start := 326/5, stop := 70 } =
      "[00:01:05–00:01:10]" := by
  have hf1 : format_time ((326:ℚ)/5) = "00:01:05" := by
    have hq : (0:ℚ) ≤ 326/5 := by norm_num
    have hfl : ⌊(326:ℚ)/5⌋ = 65 := by
      rw [Int.floor_eq_iff]
      constructor <;> norm_num
    unfold format_time pyInt
    rw [if_pos hq, hfl]
    decide
  have hf2 : format_time (70:ℚ) = "00:01:10" := by
    have hq : (0:ℚ) ≤ 70 := by norm_num
    have hfl : ⌊(70:ℚ)⌋ = 70 := by
      rw [Int.floor_eq_iff]
      constructor <;> norm_num
    unfold format_time pyInt
    rw [if_pos hq, hfl]
    decide
  constructor
  · intro segments hpos
    unfold segments_to_text specRender
    refine congrArg (String.intercalate "\n") ?_
    apply List.map_congr_left
    intro s hs
    obtain ⟨h1, h2⟩ := hpos s hs
    unfold Segment.pretty_time
    rw [format_time_eq_spec _ h1, format_time_eq_spec _ h2]
  · show ("[" ++ format_time ((326:ℚ)/5) ++ "–" ++ format_time (70:ℚ) ++ "]" : String) =
      "[00:01:05–00:01:10]"
    rw [hf1, hf2]
    decide

/-- Witness for C4 on a one-segment list with the 65.2–70.0 window. -/
theorem claim_C4_witness :
    segments_to_text [{ speaker := "A", text := "x", start := 326/5, stop := 70 }] =
      specRender [{ speaker := "A", text := "x", start := 326/5, stop := 70 }] :=
  claim_C4.1 _ (by
    intro s hs
    simp only [List.mem_singleton] at hs
    subst hs
    exact ⟨by norm_num, by norm_num⟩)

/-- C5: `apply_speaker_map` is a pure substitution — the output has the
same length and order, every field except the speaker is copied
unchanged, and the speaker becomes `map.get(original.speaker,
original.speaker)`.  (In this functional embedding the input list is a
value, so the absence of mutation is inherent.) -/
theorem claim_C5 (segments : List Segment) (mapping : List (String × String)) :
    (apply_speaker_map segments mapping).length = segments.length ∧
    List.Forall₂ (fun s o =>
        o.text = s.text ∧ o.start = s.start ∧ o.stop = s.stop ∧
        o.speaker = dictGetD mapping s.speaker s.speaker)
      segments (apply_speaker_map segments mapping) := by
  refine ⟨by simp [apply_speaker_map], ?_⟩
  unfold apply_speaker_map
  rw [List.forall₂_map_right_iff]
  exact List.forall₂_same.mpr (fun s _ => ⟨rfl, rfl, rfl, rfl⟩)

/-- C6: for every speaker that ends with at least one embedding vector,
`enroll_speakers` stores the element-wise arithmetic mean of that
speaker's vectors (the `float32` cast is the identity on these exact
values) in a file named `<mapped display name>.npy`, falling back to the
raw speaker code if unmapped; averaging `[1,3]` and `[3,5]` yields
`[2,4]`. -/
theorem claim_C6 :
    (∀ (vs : List (List ℚ)) (n : ℕ), vs ≠ [] → (∀ v ∈ vs, v.length = n) →
      (npMean vs).length = n ∧
      ∀ i < n, (npMean vs).getD i 0 =
        (vs.map (fun v => v.getD i 0)).sum / (vs.length : ℚ)) ∧
    npMean [[1, 3], [3, 5]] = [2, 4] ∧
    (∀ (segments : List EnrollRecord) (speaker_map : List (String × String))
        (embed : ℚ × ℚ → List ℚ) (exit : ℚ × ℚ → ℤ) (created : List (String × List ℚ)),
      enroll_speakers segments speaker_map embed exit = .ok created →
      ∀ entry ∈ created, ∃ p, p ∈ groupSegments segments ∧
        entry.1 = dictGetD speaker_map p.1 p.1 ++ ".npy" ∧
        entry.2 = npMean (((sortWindowsDesc p.2).take 5).map embed)) := by
  refine ⟨fun vs n hne hall => npMean_spec hne hall, ?_, ?_⟩
  · norm_num [npMean]
  · intro segments speaker_map embed exit created h entry hentry
    obtain ⟨-, hcr⟩ := enrollGroups_ok h
    subst hcr
    obtain ⟨p, hp, hfp⟩ := List.mem_filterMap.mp hentry
    refine ⟨p, hp, ?_⟩
    by_cases hemp : ((sortWindowsDesc p.2).take 5).isEmpty
    · rw [if_pos hemp] at hfp
      exact absurd hfp (by simp)
    · rw [if_neg hemp] at hfp
      obtain rfl := (Option.some.inj hfp).symm
      exact ⟨rfl, rfl⟩

/-- Witness for C6: the mean of the two concrete embedding vectors. -/
theorem claim_C6_witness :
    (npMean [[1, 3], [3, 5]]).length = 2 ∧
    ∀ i < 2, (npMean [[1, 3], [3, 5]]).getD i 0 =
      ([[1, 3], [3, 5]].map (fun v => v.getD i 0)).sum /
        (([[1, 3], [3, 5]] : List (List ℚ)).length : ℚ) :=
  claim_C6.1 [[1, 3], [3, 5]] 2 (by simp) (by
    intro v hv
    rcases List.mem_cons.mp hv with rfl | hv'
    · rfl
    · rcases List.mem_singleton.mp hv' with rfl
      rfl)

/-- C7: a per-window cut failure (nonzero exit status; the non-positive
duration branch is the other fatal case) aborts the entire enrollment
call rather than skipping that window; at the orchestrator boundary the
transcript is written before enrollment runs, an enrollment error is
downgraded to a logged warning, and the pipeline result is delivered
regardless. -/
theorem claim_C7 :
    (∀ (segments : List EnrollRecord) (speaker_map : List (String × String))
        (embed : ℚ × ℚ → List ℚ) (exit : ℚ × ℚ → ℤ),
      (∃ p ∈ groupSegments segments, ∃ w ∈ (sortWindowsDesc p.2).take 5, exit w ≠ 0) →
      ∃ e, enroll_speakers segments speaker_map embed exit = .error e) ∧
    (∀ (segments : List Segment) (speaker_map : List (String × String))
        (embed : ℚ × ℚ → List ℚ) (exit : ℚ × ℚ → ℤ),
      (processPost segments speaker_map embed exit).transcriptWritten = true ∧
      (processPost segments speaker_map embed exit).delivered = true ∧
      (processPost segments speaker_map embed exit).transcript =
        segments_to_text (apply_speaker_map segments speaker_map) ∧
      (∀ e : EnrollmentError, speaker_map ≠ [] →
        enroll_speakers (recordsOfSegments segments) speaker_map embed exit = .error e →
        (processPost segments speaker_map embed exit).warnings = [enrollWarning e])) := by
  constructor
  · intro segments speaker_map embed exit hbad
    cases h : enroll_speakers segments speaker_map embed exit with
    | error e => exact ⟨e, rfl⟩
    | ok created =>
      obtain ⟨hexit, -⟩ := enrollGroups_ok h
      obtain ⟨p, hp, w, hw, hne⟩ := hbad
      exact absurd (hexit p hp w hw).1 hne
  · intro segments speaker_map embed exit
    refine ⟨rfl, rfl, rfl, ?_⟩
    intro e hne h
    unfold processPost
    have hemp : speaker_map.isEmpty = false := by
      cases speaker_map with
      | nil => exact absurd rfl hne
      | cons q rest => rfl
    rw [hemp]
    dsimp only
    rw [h]
    simp

/-- Witness for C7: a nonzero exit status on the only selected window
makes the whole enrollment call fail. -/
theorem claim_C7_witness :
    ∃ e, enroll_speakers [{ speaker := some "S", start := some 2, stop := some 5 }]
      [("S", "Alice")] (fun w => [w.1, w.2]) (fun _ => 1) = .error e :=
  claim_C7.1 [{ speaker := some "S", start := some 2, stop := some 5 }]
    [("S", "Alice")] (fun w => [w.1, w.2]) (fun _ => 1)
    ⟨("S", [(2, 5)]), by norm_num [groupSegments, groupStep, addToGroup]; decide,
      (2, 5), by norm_num [sortWindowsDesc, insertWindow], by decide⟩

/-- C8: a successful load keeps exactly the records whose trimmed text is
non-empty: the result is an order-preserving `filterMap` of the record
list, its length is shorter by exactly the number of skipped records, and
a record is skipped precisely when its text strips to the empty string. -/
theorem claim_C8 (rs : List JValue) (segs : List Segment)
    (h : loadRecords rs = .ok segs) :
    segs = rs.filterMap keptSegment ∧
    segs.length + rs.countP isSkipped = rs.length ∧
    ∀ r : JValue, isSkipped r = true ↔ strippedText r = .ok "" := by
  obtain ⟨h1, h2⟩ := loadRecords_ok_spec h
  exact ⟨h1, h2, isSkipped_iff⟩

/-- Witness for C8 on a two-record list with one whitespace-only text. -/
theorem claim_C8_witness :
    ([{ speaker := "SPEAKER", text := "hi", start := 0, stop := 0 }] : List Segment) =
      ([.obj [("text", .str "  ")], .obj [("text", .str "hi")]] : List JValue).filterMap
        keptSegment ∧
    ([{ speaker := "SPEAKER", text := "hi", start := 0, stop := 0 }] : List Segment).length +
        ([.obj [("text", .str "  ")], .obj [("text", .str "hi")]] : List JValue).countP
          isSkipped =
      ([.obj [("text", .str "  ")], .obj [("text", .str "hi")]] : List JValue).length ∧
    ∀ r : JValue, isSkipped r = true ↔ strippedText r = .ok "" :=
  claim_C8 [.obj [("text", .str "  ")], .obj [("text", .str "hi")]]
    [{ speaker := "SPEAKER", text := "hi", start := 0, stop := 0 }] rfl

/-- C9: the load-then-render composition is a deterministic function of
the parsed document — byte-identical input gives byte-identical output. -/
theorem claim_C9 (d₁ d₂ : Except Unit JValue) (h : d₁ = d₂) :
    loadRender d₁ = loadRender d₂ := by
  rw [h]

/-- Witness for C9 at a concrete one-segment transcript. -/
theorem claim_C9_witness :
    loadRender (.ok (.obj [("segments", .arr [.obj [("speaker", .str "A"),
        ("text", .str "hi"), ("start", .num 1), ("end", .num 2)]])])) =
      loadRender (.ok (.obj [("segments", .arr [.obj [("speaker", .str "A"),
        ("text", .str "hi"), ("start", .num 1), ("end", .num 2)]])])) :=
  claim_C9 _ _ rfl

end DiarizationBot
